import Mathlib

/-!
Verification of the sales-report pipeline (`sales_report.py`).

The embedding models the pandas `DataFrame` as an ordered association list
of named columns of scalar cells.  Monetary values are modelled as exact
rationals, calendar dates as `(year, month, day)` triples.  `pd.to_numeric
(errors='coerce').fillna(0)` is the coercion `coerceNum`, `pd.to_datetime`
over a column is `parseDates` (failing as a whole when any value is
unparsable), and `sort_values`/`groupby`'s key sort are modelled as
insertion sorts.  pandas sorts group keys ascending; the value sort
(`sort_values`, default quicksort) leaves the relative order of equal keys
unspecified, so the deterministic insertion sort here is one admissible
refinement of it (it agrees with pandas on the small tables evaluated
below), and no theorem about the program relies on the tie order it
happens to produce.  String comparison is code-point lexicographic, as in
Python.
-/

namespace SalesReport

/-- A calendar date (year, month, day), as produced by the datetime parsing
step of `read_sales_excel`. -/
structure Date where
  year : Nat
  month : Nat
  day : Nat
  deriving DecidableEq, Repr

/-- Numeric sort key of a date: lexicographic on (year, month, day). -/
def Date.key (d : Date) : Nat := d.year * 10000 + d.month * 100 + d.day

/-- First calendar day of the date's year-month: models
`dt.to_period('M').dt.to_timestamp()` in `summarize_by_month`. -/
def Date.monthStart (d : Date) : Date := ⟨d.year, d.month, 1⟩

/-- One scalar cell of the spreadsheet: a number, a piece of text, a
date-like value, or an empty/NaN cell. -/
inductive Cell where
  | num (q : ℚ)
  | text (s : String)
  | dateV (d : Date)
  | null
  deriving DecidableEq, Repr

/-- Numeric parsing of one cell (`pd.to_numeric` on one value): numbers
parse to themselves, everything else fails. -/
def parseNum : Cell → Option ℚ
  | Cell.num q => some q
  | _ => none

/-- The silent-zero numeric coercion of `read_sales_excel`:
`pd.to_numeric(col, errors='coerce').fillna(0)` applied to one value. -/
def coerceNum (c : Cell) : ℚ := (parseNum c).getD 0

/-- Date parsing of one cell (`pd.to_datetime` on one value): date-like
values parse, everything else fails. -/
def parseDate : Cell → Option Date
  | Cell.dateV d => some d
  | _ => none

/-- `pd.to_datetime` over a whole column: succeeds only when every value
parses; a single unparsable value fails the whole column. -/
def parseDates : List Cell → Option (List Date)
  | [] => some []
  | c :: cs =>
    match parseDate c, parseDates cs with
    | some d, some ds => some (d :: ds)
    | _, _ => none

/-- Text coercion of one cell, modelling `astype(str)`; it never fails.
`null` renders as "nan" like `str(float('nan'))`. -/
def cellStr : Cell → String
  | Cell.num q => "#" ++ toString q.num ++ "/" ++ toString q.den
  | Cell.text s => s
  | Cell.dateV d => "@" ++ toString d.year ++ "-" ++ toString d.month ++ "-" ++ toString d.day
  | Cell.null => "nan"

/-- Bool test: is `pat` a contiguous sublist of the char list? Helper for
Python's substring operator `in`. -/
def subAt (pat : List Char) : List Char → Bool
  | [] => pat.isEmpty
  | c :: cs => pat.isPrefixOf (c :: cs) || subAt pat cs

/-- Python's `pat in hay` substring test on strings. -/
def strContains (hay pat : String) : Bool := subAt pat.data hay.data

/-- ASCII lower-casing of one character (Python `str.lower` restricted to
ASCII headers, which is all the resolver compares against). -/
def lowerChar (c : Char) : Char :=
  if 65 ≤ c.toNat ∧ c.toNat ≤ 90 then Char.ofNat (c.toNat + 32) else c

/-- Header normalization `c.strip().lower()` applied to one column name. -/
def normName (s : String) : String :=
  ⟨(((s.data.dropWhile Char.isWhitespace).reverse.dropWhile
      Char.isWhitespace).reverse).map lowerChar⟩

/-- Code-point lexicographic comparison of char lists, the order Python
uses to compare strings (and hence the order pandas sorts group keys in). -/
def charsLeb : List Char → List Char → Bool
  | [], _ => true
  | _ :: _, [] => false
  | a :: as, b :: bs =>
    if a.toNat < b.toNat then true
    else if b.toNat < a.toNat then false
    else charsLeb as bs

/-- Python string order `a <= b`. -/
def strLe (a b : String) : Prop := charsLeb a.data b.data = true

instance : DecidableRel strLe := fun _ _ => inferInstanceAs (Decidable (_ = true))

/-- The dataframe: an ordered list of named columns. -/
structure DF where
  cols : List (String × List Cell)
  deriving DecidableEq, Repr

/-- Column names, in table order. -/
def DF.names (df : DF) : List String := df.cols.map Prod.fst

/-- Lookup of a column by name (first match, empty if absent). -/
def getColAux (n : String) : List (String × List Cell) → List Cell
  | [] => []
  | p :: ps => if p.1 = n then p.2 else getColAux n ps

/-- `df[n]`: the cells of column `n`. -/
def DF.getCol (df : DF) (n : String) : List Cell := getColAux n df.cols

/-- Column assignment: replace the (first) column named `n`, or append a new
column at the end of the table, as `df[n] = v` does. -/
def setColAux (n : String) (v : List Cell) : List (String × List Cell) → List (String × List Cell)
  | [] => [(n, v)]
  | p :: ps => if p.1 = n then (n, v) :: ps else p :: setColAux n v ps

/-- `df[n] = v`. -/
def DF.setCol (df : DF) (n : String) (v : List Cell) : DF := ⟨setColAux n v df.cols⟩

/-- Well-formedness of a dataframe: every column has the same number of
rows `n` (pandas cannot represent ragged tables). -/
def DF.WF (df : DF) (n : Nat) : Prop := ∀ p ∈ df.cols, p.2.length = n

instance (df : DF) (n : Nat) : Decidable (df.WF n) :=
  inferInstanceAs (Decidable (∀ p ∈ df.cols, p.2.length = n))

/-- `df.columns = [c.strip().lower() for c in df.columns]`. -/
def normalizeCols (df : DF) : DF := ⟨df.cols.map (fun p => (normName p.1, p.2))⟩

/-- Date-column detection: name contains "date" or "data". -/
def isDateName (c : String) : Bool := strContains c "date" || strContains c "data"

/-- Quantity-like column name: contains "qty", "quantity" or "quantidade". -/
def isQtyName (c : String) : Bool :=
  strContains c "qty" || strContains c "quantity" || strContains c "quantidade"

/-- Price-like column name: contains "price", "preco" or "valor_unit". -/
def isPriceName (c : String) : Bool :=
  strContains c "price" || strContains c "preco" || strContains c "valor_unit"

/-- Fallback direct-amount column name: exactly "amount", "valor_total" or
"total". -/
def isOtherName (c : String) : Bool :=
  c = "amount" || c = "valor_total" || c = "total"

/-- Product-column detection: name contains "product", "produto" or "item". -/
def isProdName (c : String) : Bool :=
  strContains c "product" || strContains c "produto" || strContains c "item"

/-- The error kinds of the pipeline: the three schema errors raised by
`read_sales_excel` (missing date column, unresolvable sales path, missing
product column) and the data error of unparsable dates. -/
inductive RptError where
  | noDateCol
  | badDates
  | noSalesCols
  | noProductCol
  deriving DecidableEq, Repr

/-- How the sales value is obtained: a direct monetary column, a
quantity-like × price-like pair, or a fallback amount column. -/
inductive SalesPath where
  | direct (col : String)
  | qtyPrice (qc pc : String)
  | other (col : String)
  deriving DecidableEq, Repr

/-- Sales-path resolution of `read_sales_excel`, in source order: (1) a
column named exactly "sales" or "valor"; (2) a quantity-like and a
price-like column (first of each in table order); (3) a column named
exactly "amount", "valor_total" or "total"; otherwise no path. -/
def resolveSalesPath (names : List String) : Option SalesPath :=
  if "sales" ∈ names ∨ "valor" ∈ names then
    some (SalesPath.direct (if "sales" ∈ names then "sales" else "valor"))
  else
    match names.filter isQtyName, names.filter isPriceName with
    | qc :: _, pc :: _ => some (SalesPath.qtyPrice qc pc)
    | _, _ =>
      match names.filter isOtherName with
      | oc :: _ => some (SalesPath.other oc)
      | [] => none

/-- Materialize the resolved sales path on the table, exactly as the
assignments in `read_sales_excel` do: the direct and fallback paths set
`df['sales']` to the coerced source column; the quantity×price path first
sets the coerced `df['quantity']` and `df['price']` columns and then their
row-wise product as `df['sales']`. -/
def applySales (df : DF) : SalesPath → DF
  | SalesPath.direct c =>
    df.setCol "sales" ((df.getCol c).map (fun x => Cell.num (coerceNum x)))
  | SalesPath.qtyPrice qc pc =>
    let dfq := df.setCol "quantity" ((df.getCol qc).map (fun x => Cell.num (coerceNum x)))
    let dfp := dfq.setCol "price" ((dfq.getCol pc).map (fun x => Cell.num (coerceNum x)))
    dfp.setCol "sales"
      (List.zipWith (fun a b => Cell.num (coerceNum a * coerceNum b))
        (dfp.getCol "quantity") (dfp.getCol "price"))
  | SalesPath.other c =>
    df.setCol "sales" ((df.getCol c).map (fun x => Cell.num (coerceNum x)))

/-- `read_sales_excel`: normalize headers, find the first date-like column
and parse it (hard failure on any unparsable date), resolve and materialize
the sales path, then find the first product-like column and coerce it to
text.  The checks happen in exactly this order. -/
def read_sales_excel (df0 : DF) : Except RptError DF :=
  let df := normalizeCols df0
  match df.names.filter isDateName with
  | [] => Except.error RptError.noDateCol
  | dc :: _ =>
    match parseDates (df.getCol dc) with
    | none => Except.error RptError.badDates
    | some ds =>
      let df1 := df.setCol "date" (ds.map Cell.dateV)
      match resolveSalesPath df1.names with
      | none => Except.error RptError.noSalesCols
      | some p =>
        let df2 := applySales df1 p
        match df2.names.filter isProdName with
        | [] => Except.error RptError.noProductCol
        | pc :: _ =>
          Except.ok (df2.setCol "product" ((df2.getCol pc).map (fun c => Cell.text (cellStr c))))

/-- Sum of the sales of all rows carrying group key `k`
(one group of a `groupby(...)['sales'].sum()`). -/
def sumKey {κ : Type} [DecidableEq κ] (pairs : List (κ × ℚ)) (k : κ) : ℚ :=
  ((pairs.filter fun p => p.1 = k).map Prod.snd).sum

/-- The distinct elements of a list in order of first occurrence (the group
keys before pandas sorts them). -/
def firstOccur {α : Type} [DecidableEq α] : List α → List α
  | [] => []
  | a :: l => a :: (firstOccur l).filter (fun x => x ≠ a)

/-- Descending-by-sales order used by
`sort_values('sales', ascending=False)` on the grouped product table. -/
def salesGe (a b : String × ℚ) : Prop := b.2 ≤ a.2

instance : DecidableRel salesGe := fun a b => inferInstanceAs (Decidable (b.2 ≤ a.2))

/-- Ascending month order used to sort the monthly summary. -/
def monthLe (a b : Date) : Prop := a.key ≤ b.key

instance : DecidableRel monthLe := fun a b => inferInstanceAs (Decidable (a.key ≤ b.key))

/-- The (product, sales) rows that `groupby('product', dropna=False)['sales']`
reduces, read off the normalized table. -/
def prodPairs (df : DF) : List (String × ℚ) :=
  ((df.getCol "product").map cellStr).zip ((df.getCol "sales").map coerceNum)

/-- `summarize_by_product`: group the rows by product (group keys sorted
ascending by `groupby`), sum sales per group, and sort the groups
descending by their sums.  The final `sort_values('sales',
ascending=False)` uses quicksort, whose order among equal sums is
unspecified; the insertion sort used here is one deterministic refinement
of that contract, and only its tie-order-insensitive consequences
(descending sums, group correctness, key uniqueness) are asserted of the
program. -/
def summarize_by_product (df : DF) : List (String × ℚ) :=
  let pairs := prodPairs df
  let keys := List.insertionSort strLe (firstOccur (pairs.map Prod.fst))
  List.insertionSort salesGe (keys.map fun k => (k, sumKey pairs k))

/-- `summarize_by_month`: re-parse the date column, truncate each date to
the first day of its month, store the result as a new `month` column on the
input table (the source mutates its argument here), then group by month and
sum sales, months ascending.  Returns the updated table together with the
summary. -/
def summarize_by_month (df : DF) : Except RptError (DF × List (Date × ℚ)) :=
  match parseDates (df.getCol "date") with
  | none => Except.error RptError.badDates
  | some ds =>
    let months := ds.map Date.monthStart
    let dfm := df.setCol "month" (months.map Cell.dateV)
    let pairs := months.zip ((dfm.getCol "sales").map coerceNum)
    let keys := List.insertionSort monthLe (firstOccur months)
    Except.ok (dfm, keys.map fun k => (k, sumKey pairs k))

/-- The data content of the finished report: the two summary tables that
the charts and PDF tables are rendered from. -/
structure Report where
  products : List (String × ℚ)
  months : List (Date × ℚ)
  deriving DecidableEq, Repr

/-- The `main` flow up to the data it places in the document: read the
table, then build both summaries; any error aborts the run before any
document exists. -/
def runPipeline (df : DF) : Except RptError Report :=
  match read_sales_excel df with
  | Except.error e => Except.error e
  | Except.ok d =>
    match summarize_by_month d with
    | Except.error e => Except.error e
    | Except.ok dm => Except.ok ⟨summarize_by_product d, dm.2⟩

/-- The column names a resolved sales path reads from. -/
def pathCols : SalesPath → List String
  | SalesPath.direct c => [c]
  | SalesPath.qtyPrice qc pc => [qc, pc]
  | SalesPath.other c => [c]

/-- A table with two equal-sum products whose first occurrence order ("b"
before "a") disagrees with alphabetical order. -/
def nDF4 : DF :=
  ⟨[("product", [Cell.text "b", Cell.text "a"]),
    ("sales", [Cell.num 5, Cell.num 5])]⟩

/-- A table whose sales column carries a negative value. -/
def exDF5 : DF :=
  ⟨[("date", [Cell.dateV ⟨2025, 1, 5⟩]),
    ("product", [Cell.text "Camiseta"]),
    ("sales", [Cell.num (-5)])]⟩

/-- A small normalized table (date, product, sales). -/
def nDF6 : DF :=
  ⟨[("date", [Cell.dateV ⟨2025, 1, 5⟩]),
    ("product", [Cell.text "Camiseta"]),
    ("sales", [Cell.num 1])]⟩

/-- The round-trip input of the spec: two Camiseta rows with quantity and
price columns, dated 2025-01-05 and 2025-02-02. -/
def exDF7 : DF :=
  ⟨[("date", [Cell.dateV ⟨2025, 1, 5⟩, Cell.dateV ⟨2025, 2, 2⟩]),
    ("product", [Cell.text "Camiseta", Cell.text "Camiseta"]),
    ("quantity", [Cell.num 3, Cell.num 2]),
    ("price", [Cell.num (499/10), Cell.num (499/10)])]⟩

/-- The normalized table the reader produces from `exDF7`. -/
def outDF7 : DF :=
  ⟨[("date", [Cell.dateV ⟨2025, 1, 5⟩, Cell.dateV ⟨2025, 2, 2⟩]),
    ("product", [Cell.text "Camiseta", Cell.text "Camiseta"]),
    ("quantity", [Cell.num 3, Cell.num 2]),
    ("price", [Cell.num (499/10), Cell.num (499/10)]),
    ("sales", [Cell.num (3 * (499/10)), Cell.num (2 * (499/10))])]⟩

/-- The month-summary result on `outDF7` (table with added month column,
and the monthly summary rows). -/
def month7 : DF × List (Date × ℚ) :=
  (summarize_by_month outDF7).toOption.getD (⟨[]⟩, [])

/-- A table whose date column holds a value that does not parse as a date. -/
def exDF8 : DF :=
  ⟨[("date", [Cell.text "not a date"]),
    ("product", [Cell.text "Camiseta"]),
    ("sales", [Cell.num 1])]⟩

/-- A table with no date-like column name. -/
def exDF9 : DF :=
  ⟨[("product", [Cell.text "Camiseta"]),
    ("sales", [Cell.num 1])]⟩

/-- A table with a date column but neither a product-like column nor any
resolvable sales path. -/
def exDF10 : DF :=
  ⟨[("date", [Cell.dateV ⟨2025, 1, 5⟩]),
    ("x", [Cell.num 1])]⟩

/-! ### Order facts for the sort relations -/

theorem charsLeb_total (xs ys : List Char) :
    charsLeb xs ys = true ∨ charsLeb ys xs = true := by
  induction xs generalizing ys with
  | nil => left; rfl
  | cons a as ih =>
    cases ys with
    | nil => right; rfl
    | cons b bs =>
      by_cases h1 : a.toNat < b.toNat
      · left; simp [charsLeb, h1]
      · by_cases h2 : b.toNat < a.toNat
        · right; simp [charsLeb, h2]
        · rcases ih bs with h | h
          · left; simp [charsLeb, h1, h2, h]
          · right; simp [charsLeb, h1, h2, h]

theorem charsLeb_trans (xs ys zs : List Char) (hxy : charsLeb xs ys = true)
    (hyz : charsLeb ys zs = true) : charsLeb xs zs = true := by
  induction xs generalizing ys zs with
  | nil => rfl
  | cons a as ih =>
    cases ys with
    | nil => simp [charsLeb] at hxy
    | cons b bs =>
      cases zs with
      | nil => simp [charsLeb] at hyz
      | cons c cs =>
        by_cases hab : a.toNat < b.toNat
        · by_cases hbc : b.toNat < c.toNat
          · simp [charsLeb, Nat.lt_trans hab hbc]
          · by_cases hcb : c.toNat < b.toNat
            · simp [charsLeb, hbc, hcb] at hyz
            · have hac : a.toNat < c.toNat := by omega
              simp [charsLeb, hac]
        · by_cases hba : b.toNat < a.toNat
          · simp [charsLeb, hab, hba] at hxy
          · by_cases hbc : b.toNat < c.toNat
            · have hac : a.toNat < c.toNat := by omega
              simp [charsLeb, hac]
            · by_cases hcb : c.toNat < b.toNat
              · simp [charsLeb, hbc, hcb] at hyz
              · have hxy' : charsLeb as bs = true := by
                  simpa [charsLeb, hab, hba] using hxy
                have hyz' : charsLeb bs cs = true := by
                  simpa [charsLeb, hbc, hcb] using hyz
                have hac : ¬ a.toNat < c.toNat := by omega
                have hca : ¬ c.toNat < a.toNat := by omega
                simp [charsLeb, hac, hca, ih bs cs hxy' hyz']

instance : IsTotal String strLe := ⟨fun a b => charsLeb_total a.data b.data⟩

instance : IsTrans String strLe := ⟨fun a b c => charsLeb_trans a.data b.data c.data⟩

instance : IsTotal (String × ℚ) salesGe := ⟨fun a b => le_total b.2 a.2⟩

instance : IsTrans (String × ℚ) salesGe := ⟨fun _ _ _ h1 h2 => le_trans h2 h1⟩

instance : IsTotal Date monthLe := ⟨fun a b => Nat.le_total a.key b.key⟩

instance : IsTrans Date monthLe := ⟨fun _ _ _ => Nat.le_trans⟩

/-! ### Dataframe access lemmas -/

theorem getColAux_setColAux_self (n : String) (v : List Cell) :
    ∀ l : List (String × List Cell), getColAux n (setColAux n v l) = v := by
  intro l
  induction l with
  | nil => simp [setColAux, getColAux]
  | cons p ps ih =>
    by_cases h : p.1 = n
    · simp [setColAux, getColAux, h]
    · simp [setColAux, getColAux, h, ih]

theorem getCol_setCol_self (df : DF) (n : String) (v : List Cell) :
    (df.setCol n v).getCol n = v :=
  getColAux_setColAux_self n v df.cols

theorem getColAux_setColAux_ne (n m : String) (v : List Cell) (h : m ≠ n) :
    ∀ l : List (String × List Cell), getColAux m (setColAux n v l) = getColAux m l := by
  intro l
  induction l with
  | nil => simp [setColAux, getColAux, Ne.symm h]
  | cons p ps ih =>
    by_cases hp : p.1 = n
    · simp [setColAux, getColAux, hp, Ne.symm h]
    · simp [setColAux, getColAux, hp, ih]

theorem getCol_setCol_ne (df : DF) (n m : String) (v : List Cell) (h : m ≠ n) :
    (df.setCol n v).getCol m = df.getCol m :=
  getColAux_setColAux_ne n m v h df.cols

theorem mem_fst_setColAux_self (n : String) (v : List Cell) :
    ∀ l : List (String × List Cell), n ∈ (setColAux n v l).map Prod.fst := by
  intro l
  induction l with
  | nil => simp [setColAux]
  | cons p ps ih =>
    by_cases h : p.1 = n
    · simp [setColAux, h]
    · simp only [setColAux, if_neg h, List.map_cons, List.mem_cons]
      exact Or.inr ih

theorem mem_names_setCol_self (df : DF) (n : String) (v : List Cell) :
    n ∈ (df.setCol n v).names :=
  mem_fst_setColAux_self n v df.cols

theorem mem_fst_setColAux (n m : String) (v : List Cell) :
    ∀ l : List (String × List Cell),
      m ∈ l.map Prod.fst → m ∈ (setColAux n v l).map Prod.fst := by
  intro l
  induction l with
  | nil => intro h; simp at h
  | cons p ps ih =>
    intro h
    simp only [List.map_cons, List.mem_cons] at h
    by_cases hp : p.1 = n
    · simp only [setColAux, if_pos hp, List.map_cons, List.mem_cons]
      rcases h with h' | h'
      · exact Or.inl (h'.trans hp)
      · exact Or.inr h'
    · simp only [setColAux, if_neg hp, List.map_cons, List.mem_cons]
      rcases h with h' | h'
      · exact Or.inl h'
      · exact Or.inr (ih h')

theorem mem_names_setCol (df : DF) (n m : String) (v : List Cell) (h : m ∈ df.names) :
    m ∈ (df.setCol n v).names :=
  mem_fst_setColAux n m v df.cols h

theorem WF_setColAux {k : Nat} (n : String) (v : List Cell) (hv : v.length = k) :
    ∀ l : List (String × List Cell), (∀ p ∈ l, p.2.length = k) →
      ∀ p ∈ setColAux n v l, p.2.length = k := by
  intro l
  induction l with
  | nil =>
    intro _ p hp
    simp only [setColAux, List.mem_singleton] at hp
    subst hp; exact hv
  | cons q qs ih =>
    intro hl p hp
    by_cases hq : q.1 = n
    · simp only [setColAux, if_pos hq, List.mem_cons] at hp
      rcases hp with rfl | hp
      · exact hv
      · exact hl p (List.mem_cons_of_mem _ hp)
    · simp only [setColAux, if_neg hq, List.mem_cons] at hp
      rcases hp with rfl | hp
      · exact hl p (List.mem_cons_self _ _)
      · exact ih (fun r hr => hl r (List.mem_cons_of_mem _ hr)) p hp

theorem WF_setCol {df : DF} {k : Nat} {v : List Cell} (n : String)
    (hwf : DF.WF df k) (hv : v.length = k) : DF.WF (df.setCol n v) k :=
  WF_setColAux n v hv df.cols hwf

theorem getColAux_length {k : Nat} {c : String} :
    ∀ l : List (String × List Cell), (∀ p ∈ l, p.2.length = k) →
      c ∈ l.map Prod.fst → (getColAux c l).length = k := by
  intro l
  induction l with
  | nil => intro _ h; simp at h
  | cons p ps ih =>
    intro hl hc
    by_cases hp : p.1 = c
    · simpa [getColAux, hp] using hl p (List.mem_cons_self _ _)
    · simp only [List.map_cons, List.mem_cons] at hc
      have hc' : c ∈ ps.map Prod.fst := by
        rcases hc with h' | h'
        · exact absurd h'.symm hp
        · exact h'
      simpa [getColAux, hp] using
        ih (fun r hr => hl r (List.mem_cons_of_mem _ hr)) hc'

theorem getCol_length {df : DF} {k : Nat} {c : String}
    (hwf : DF.WF df k) (hc : c ∈ df.names) : (df.getCol c).length = k :=
  getColAux_length df.cols hwf hc

theorem WF_normalizeCols {df : DF} {k : Nat} (hwf : DF.WF df k) :
    DF.WF (normalizeCols df) k := by
  intro p hp
  simp only [normalizeCols, List.mem_map] at hp
  obtain ⟨q, hq, rfl⟩ := hp
  exact hwf q hq

/-! ### Parsing and grouping lemmas -/

theorem parseDates_length {cs : List Cell} {ds : List Date}
    (h : parseDates cs = some ds) : ds.length = cs.length := by
  induction cs generalizing ds with
  | nil =>
    simp only [parseDates, Option.some.injEq] at h
    simp [← h]
  | cons c cs ih =>
    cases hc : parseDate c with
    | none => simp [parseDates, hc] at h
    | some d =>
      cases hcs : parseDates cs with
      | none => simp [parseDates, hc, hcs] at h
      | some ds' =>
        simp only [parseDates, hc, hcs, Option.some.injEq] at h
        simp [← h, ih hcs]

theorem parseDates_map_dateV (ds : List Date) :
    parseDates (ds.map Cell.dateV) = some ds := by
  induction ds with
  | nil => rfl
  | cons d ds ih => simp [parseDates, parseDate, ih]

theorem mem_firstOccur {α : Type} [DecidableEq α] {a : α} {l : List α} :
    a ∈ firstOccur l ↔ a ∈ l := by
  induction l with
  | nil => simp [firstOccur]
  | cons b l ih =>
    by_cases hab : a = b
    · simp [firstOccur, hab]
    · simp [firstOccur, List.mem_filter, ih, hab]

theorem nodup_firstOccur {α : Type} [DecidableEq α] (l : List α) :
    (firstOccur l).Nodup := by
  induction l with
  | nil => simp [firstOccur]
  | cons b l ih =>
    refine List.nodup_cons.mpr ⟨?_, ih.filter _⟩
    simp [List.mem_filter, firstOccur]

theorem sumKey_cons {κ : Type} [DecidableEq κ] (p : κ × ℚ) (pairs : List (κ × ℚ)) (k : κ) :
    sumKey (p :: pairs) k = (if p.1 = k then p.2 else 0) + sumKey pairs k := by
  by_cases h : p.1 = k <;> simp [sumKey, List.filter_cons, h]

theorem sum_map_ite_zero {κ : Type} [DecidableEq κ] (keys : List κ) (k₀ : κ) (v : ℚ)
    (h : k₀ ∉ keys) : (keys.map fun k => if k₀ = k then v else 0).sum = 0 := by
  induction keys with
  | nil => rfl
  | cons a keys ih =>
    simp only [List.mem_cons, not_or] at h
    simp [h.1, ih h.2]

theorem sum_map_ite_single {κ : Type} [DecidableEq κ] (keys : List κ) (k₀ : κ) (v : ℚ)
    (hnd : keys.Nodup) (hmem : k₀ ∈ keys) :
    (keys.map fun k => if k₀ = k then v else 0).sum = v := by
  induction keys with
  | nil => cases hmem
  | cons a keys ih =>
    rcases List.mem_cons.mp hmem with rfl | hmem'
    · have hnot : k₀ ∉ keys := (List.nodup_cons.mp hnd).1
      simp [sum_map_ite_zero keys k₀ v hnot]
    · have hne : k₀ ≠ a := by
        rintro rfl; exact (List.nodup_cons.mp hnd).1 hmem'
      simp [hne, ih (List.nodup_cons.mp hnd).2 hmem']

theorem sum_map_sumKey {κ : Type} [DecidableEq κ] (pairs : List (κ × ℚ)) (keys : List κ)
    (hnd : keys.Nodup) (hsub : ∀ p ∈ pairs, p.1 ∈ keys) :
    (keys.map fun k => sumKey pairs k).sum = (pairs.map Prod.snd).sum := by
  induction pairs with
  | nil => simp [sumKey]
  | cons p pairs ih =>
    simp only [sumKey_cons]
    rw [List.sum_map_add,
      ih (fun q hq => hsub q (List.mem_cons_of_mem _ hq)),
      sum_map_ite_single keys p.1 p.2 hnd (hsub p (List.mem_cons_self _ _))]
    simp

/-! ### Inversion of the reader and sales-path resolution -/

theorem resolve_mem {names : List String} {p : SalesPath}
    (h : resolveSalesPath names = some p) : ∀ c ∈ pathCols p, c ∈ names := by
  unfold resolveSalesPath at h
  by_cases h1 : "sales" ∈ names ∨ "valor" ∈ names
  · rw [if_pos h1] at h
    simp only [Option.some.injEq] at h
    subst h
    intro c hc
    simp only [pathCols, List.mem_singleton] at hc
    subst hc
    by_cases h2 : "sales" ∈ names
    · simp [h2]
    · have h3 : "valor" ∈ names := h1.resolve_left h2
      simp [h2, h3]
  · rw [if_neg h1] at h
    cases hq : names.filter isQtyName with
    | cons qc' qs =>
      rw [hq] at h
      cases hp : names.filter isPriceName with
      | cons pc' ps =>
        rw [hp] at h
        simp only [Option.some.injEq] at h
        subst h
        intro c hc
        simp only [pathCols, List.mem_cons, List.mem_singleton] at hc
        rcases hc with rfl | rfl | hc
        · exact List.mem_of_mem_filter (hq ▸ List.mem_cons_self _ _)
        · exact List.mem_of_mem_filter (hp ▸ List.mem_cons_self _ _)
        · cases hc
      | nil =>
        rw [hp] at h
        cases ho : names.filter isOtherName with
        | nil => rw [ho] at h; cases h
        | cons oc os =>
          rw [ho] at h
          simp only [Option.some.injEq] at h
          subst h
          intro c hc
          simp only [pathCols, List.mem_singleton] at hc
          subst hc
          exact List.mem_of_mem_filter (ho ▸ List.mem_cons_self _ _)
    | nil =>
      rw [hq] at h
      cases ho : names.filter isOtherName with
      | nil => rw [ho] at h; cases h
      | cons oc os =>
        rw [ho] at h
        simp only [Option.some.injEq] at h
        subst h
        intro c hc
        simp only [pathCols, List.mem_singleton] at hc
        subst hc
        exact List.mem_of_mem_filter (ho ▸ List.mem_cons_self _ _)

theorem applySales_WF {df : DF} {k : Nat} {p : SalesPath}
    (hwf : DF.WF df k) (hm : ∀ c ∈ pathCols p, c ∈ df.names) :
    DF.WF (applySales df p) k := by
  cases p with
  | direct c =>
    have hc : c ∈ df.names := hm c (by simp [pathCols])
    exact WF_setCol _ hwf (by simp [getCol_length hwf hc])
  | other c =>
    have hc : c ∈ df.names := hm c (by simp [pathCols])
    exact WF_setCol _ hwf (by simp [getCol_length hwf hc])
  | qtyPrice qc pc =>
    have hq : qc ∈ df.names := hm qc (by simp [pathCols])
    have hp : pc ∈ df.names := hm pc (by simp [pathCols])
    have h1 : DF.WF (df.setCol "quantity" ((df.getCol qc).map
        fun x => Cell.num (coerceNum x))) k :=
      WF_setCol _ hwf (by simp [getCol_length hwf hq])
    have h2 : DF.WF ((df.setCol "quantity" ((df.getCol qc).map
        fun x => Cell.num (coerceNum x))).setCol "price"
        (((df.setCol "quantity" ((df.getCol qc).map
          fun x => Cell.num (coerceNum x))).getCol pc).map
          fun x => Cell.num (coerceNum x))) k :=
      WF_setCol _ h1 (by simp [getCol_length h1 (mem_names_setCol _ _ _ _ hp)])
    simp only [applySales]
    refine WF_setCol _ h2 ?_
    rw [List.length_zipWith,
      getCol_length h2 (mem_names_setCol _ _ _ _ (mem_names_setCol_self _ _ _)),
      getCol_length h2 (mem_names_setCol_self _ _ _)]
    simp

theorem mem_sales_applySales (df : DF) (p : SalesPath) :
    "sales" ∈ (applySales df p).names := by
  cases p <;> simp only [applySales] <;> exact mem_names_setCol_self _ _ _

theorem mem_names_applySales (df : DF) (p : SalesPath) {c : String}
    (h : c ∈ df.names) : c ∈ (applySales df p).names := by
  cases p with
  | direct d => simp only [applySales]; exact mem_names_setCol _ _ _ _ h
  | other d => simp only [applySales]; exact mem_names_setCol _ _ _ _ h
  | qtyPrice qc pc =>
    simp only [applySales]
    exact mem_names_setCol _ _ _ _ (mem_names_setCol _ _ _ _ (mem_names_setCol _ _ _ _ h))

theorem getCol_applySales {df : DF} {p : SalesPath} {c : String}
    (h1 : c ≠ "sales") (h2 : c ≠ "quantity") (h3 : c ≠ "price") :
    (applySales df p).getCol c = df.getCol c := by
  cases p with
  | direct d => simp only [applySales]; rw [getCol_setCol_ne _ _ _ _ h1]
  | other d => simp only [applySales]; rw [getCol_setCol_ne _ _ _ _ h1]
  | qtyPrice qc pc =>
    simp only [applySales]
    rw [getCol_setCol_ne _ _ _ _ h1, getCol_setCol_ne _ _ _ _ h3,
      getCol_setCol_ne _ _ _ _ h2]

theorem read_ok_struct {df0 df' : DF} (hr : read_sales_excel df0 = Except.ok df') :
    ∃ dc rest ds p pc prest,
      (normalizeCols df0).names.filter isDateName = dc :: rest ∧
      parseDates ((normalizeCols df0).getCol dc) = some ds ∧
      resolveSalesPath ((normalizeCols df0).setCol "date" (ds.map Cell.dateV)).names = some p ∧
      (applySales ((normalizeCols df0).setCol "date" (ds.map Cell.dateV)) p).names.filter
        isProdName = pc :: prest ∧
      df' = (applySales ((normalizeCols df0).setCol "date" (ds.map Cell.dateV)) p).setCol
        "product"
        (((applySales ((normalizeCols df0).setCol "date" (ds.map Cell.dateV)) p).getCol pc).map
          fun c => Cell.text (cellStr c)) := by
  simp only [read_sales_excel] at hr
  split at hr
  · simp at hr
  next dc rest hfd =>
    split at hr
    · simp at hr
    next ds hpd =>
      split at hr
      · simp at hr
      next p hsp =>
        split at hr
        · simp at hr
        next pc prest hpc =>
          simp only [Except.ok.injEq] at hr
          exact ⟨dc, rest, ds, p, pc, prest, hfd, hpd, hsp, hpc, hr.symm⟩

theorem read_ok_WF {df0 df' : DF} {k : Nat} (hwf : DF.WF df0 k)
    (hr : read_sales_excel df0 = Except.ok df') :
    DF.WF df' k ∧ "date" ∈ df'.names ∧ "sales" ∈ df'.names ∧ "product" ∈ df'.names := by
  obtain ⟨dc, rest, ds, p, pc, prest, hfd, hpd, hsp, hpc, hdf⟩ := read_ok_struct hr
  have hwfN : DF.WF (normalizeCols df0) k := WF_normalizeCols hwf
  have hdc : dc ∈ (normalizeCols df0).names :=
    List.mem_of_mem_filter (hfd ▸ List.mem_cons_self dc rest)
  have hlen : ds.length = k := by
    rw [parseDates_length hpd, getCol_length hwfN hdc]
  have hwf1 : DF.WF ((normalizeCols df0).setCol "date" (ds.map Cell.dateV)) k :=
    WF_setCol _ hwfN (by simp [hlen])
  have hwf2 : DF.WF (applySales ((normalizeCols df0).setCol "date" (ds.map Cell.dateV)) p) k :=
    applySales_WF hwf1 (resolve_mem hsp)
  have hpcm : pc ∈ (applySales ((normalizeCols df0).setCol "date"
      (ds.map Cell.dateV)) p).names :=
    List.mem_of_mem_filter (hpc ▸ List.mem_cons_self pc prest)
  subst hdf
  refine ⟨WF_setCol _ hwf2 (by simp [getCol_length hwf2 hpcm]), ?_, ?_,
    mem_names_setCol_self _ _ _⟩
  · exact mem_names_setCol _ _ _ _
      (mem_names_applySales _ _ (mem_names_setCol_self _ _ _))
  · exact mem_names_setCol _ _ _ _ (mem_sales_applySales _ _)

/-! ### Totals are conserved by grouping -/

theorem grouped_total {κ : Type} [DecidableEq κ] (le : κ → κ → Prop) [DecidableRel le]
    (keysrc : List κ) (pairs : List (κ × ℚ))
    (hsub : ∀ p ∈ pairs, p.1 ∈ keysrc) :
    (((List.insertionSort le (firstOccur keysrc)).map
        fun k => (k, sumKey pairs k)).map Prod.snd).sum = (pairs.map Prod.snd).sum := by
  rw [List.map_map]
  have hkeys := (List.perm_insertionSort le (firstOccur keysrc)).map
    (Prod.snd ∘ fun k => (k, sumKey pairs k))
  rw [hkeys.sum_eq]
  have hcomp : (Prod.snd ∘ fun k => (k, sumKey pairs k)) = fun k => sumKey pairs k := rfl
  rw [hcomp]
  exact sum_map_sumKey pairs _ (nodup_firstOccur _)
    (fun p hp => mem_firstOccur.mpr (hsub p hp))

theorem summarize_by_product_total (df : DF)
    (hlen : (df.getCol "product").length = (df.getCol "sales").length) :
    ((summarize_by_product df).map Prod.snd).sum
      = ((df.getCol "sales").map coerceNum).sum := by
  unfold summarize_by_product
  have houter := (List.perm_insertionSort salesGe
    ((List.insertionSort strLe (firstOccur ((prodPairs df).map Prod.fst))).map
      fun k => (k, sumKey (prodPairs df) k))).map Prod.snd
  rw [houter.sum_eq,
    grouped_total strLe _ _ (fun p hp => List.mem_map_of_mem Prod.fst hp)]
  unfold prodPairs
  rw [List.map_snd_zip _ _ (by simp [hlen])]

theorem summarize_by_month_total {df dfm : DF} {m : List (Date × ℚ)}
    (h : summarize_by_month df = Except.ok (dfm, m))
    (hlen : (df.getCol "sales").length = (df.getCol "date").length) :
    (m.map Prod.snd).sum = ((df.getCol "sales").map coerceNum).sum := by
  unfold summarize_by_month at h
  cases hpd : parseDates (df.getCol "date") with
  | none => rw [hpd] at h; simp at h
  | some ds =>
    rw [hpd] at h
    simp only [Except.ok.injEq, Prod.mk.injEq] at h
    obtain ⟨hdfm, hm⟩ := h
    have hsales : (df.setCol "month" ((ds.map Date.monthStart).map Cell.dateV)).getCol "sales"
        = df.getCol "sales" := getCol_setCol_ne _ _ _ _ (by decide)
    rw [← hm, hsales]
    have hlen2 : (ds.map Date.monthStart).length
        = ((df.getCol "sales").map coerceNum).length := by
      simp [parseDates_length hpd, hlen]
    have hsub : ∀ p ∈ (ds.map Date.monthStart).zip ((df.getCol "sales").map coerceNum),
        p.1 ∈ ds.map Date.monthStart := by
      intro p hp
      have hmem := List.mem_map_of_mem Prod.fst hp
      rw [List.map_fst_zip _ _ (le_of_eq hlen2)] at hmem
      exact hmem
    rw [grouped_total monthLe _ _ hsub,
      List.map_snd_zip _ _ (le_of_eq hlen2.symm)]

theorem zipWith_coerce (l₁ l₂ : List Cell) :
    List.zipWith (fun a b => Cell.num (coerceNum a * coerceNum b))
      (l₁.map fun x => Cell.num (coerceNum x)) (l₂.map fun x => Cell.num (coerceNum x))
    = List.zipWith (fun a b => Cell.num (coerceNum a * coerceNum b)) l₁ l₂ := by
  induction l₁ generalizing l₂ with
  | nil => simp
  | cons a as ih =>
    cases l₂ with
    | nil => simp
    | cons b bs => simp [ih, coerceNum, parseNum]

theorem exists_of_mem_zipWith {α β γ : Type} {f : α → β → γ} {c : γ} :
    ∀ {l₁ : List α} {l₂ : List β}, c ∈ List.zipWith f l₁ l₂ → ∃ a b, c = f a b := by
  intro l₁
  induction l₁ with
  | nil => intro l₂ h; simp at h
  | cons a as ih =>
    intro l₂ h
    cases l₂ with
    | nil => simp at h
    | cons b bs =>
      rw [List.zipWith_cons_cons] at h
      rcases List.mem_cons.mp h with rfl | h'
      · exact ⟨a, b, rfl⟩
      · exact ih h'

/-! ### The claims -/

/-- Claim C1: sales-path resolution follows the source's priority order and
stops at the first match: (1) an exact "sales"/"valor" column always wins
(in particular the quantity×price path is never taken then), (2) otherwise
a quantity-like and price-like pair (first of each in table order), (3)
otherwise an exact "amount"/"valor_total"/"total" column. -/
theorem c1_resolution_order (names : List String) :
    ("sales" ∈ names → resolveSalesPath names = some (SalesPath.direct "sales"))
    ∧ ("sales" ∉ names → "valor" ∈ names →
        resolveSalesPath names = some (SalesPath.direct "valor"))
    ∧ (∀ qc qs pc ps, "sales" ∉ names → "valor" ∉ names →
        names.filter isQtyName = qc :: qs → names.filter isPriceName = pc :: ps →
        resolveSalesPath names = some (SalesPath.qtyPrice qc pc))
    ∧ (∀ oc os, "sales" ∉ names → "valor" ∉ names →
        (names.filter isQtyName = [] ∨ names.filter isPriceName = []) →
        names.filter isOtherName = oc :: os →
        resolveSalesPath names = some (SalesPath.other oc))
    ∧ (("sales" ∈ names ∨ "valor" ∈ names) →
        ∀ qc pc, resolveSalesPath names ≠ some (SalesPath.qtyPrice qc pc)) := by
  refine ⟨?_, ?_, ?_, ?_, ?_⟩
  · intro h
    simp [resolveSalesPath, h]
  · intro h1 h2
    simp [resolveSalesPath, h1, h2]
  · intro qc qs pc ps h1 h2 hq hp
    simp [resolveSalesPath, h1, h2, hq, hp]
  · intro oc os h1 h2 hqp ho
    rcases hqp with hq | hp
    · simp [resolveSalesPath, h1, h2, hq, ho]
    · cases hq2 : names.filter isQtyName with
      | nil => simp [resolveSalesPath, h1, h2, hq2, ho]
      | cons a b => simp [resolveSalesPath, h1, h2, hq2, hp, ho]
  · intro h1 qc pc
    simp [resolveSalesPath, h1]

/-- Witness for C1 at a concrete column set holding both a direct "sales"
column and a quantity/price pair: the direct column wins. -/
theorem c1_resolution_order_witness :
    resolveSalesPath ["sales", "quantity", "price"] = some (SalesPath.direct "sales")
    ∧ resolveSalesPath ["sales", "quantity", "price"]
        ≠ some (SalesPath.qtyPrice "quantity" "price") :=
  ⟨(c1_resolution_order ["sales", "quantity", "price"]).1 (by decide),
   (c1_resolution_order ["sales", "quantity", "price"]).2.2.2.2 (by decide)
     "quantity" "price"⟩

/-- Claim C2: the silent-zero coercion: any cell that fails numeric parsing
coerces to 0; on the direct and fallback paths the sales column is the
value-wise coercion of the source column; on the quantity×price path each
factor is coerced independently before the row-wise multiplication; the
coercion never fails and, on a well-formed table that the reader accepts,
the sales column keeps one entry per input row (no row is skipped). -/
theorem c2_silent_zero :
    (∀ c, parseNum c = none → coerceNum c = 0)
    ∧ (∀ df col, (applySales df (SalesPath.direct col)).getCol "sales"
          = (df.getCol col).map fun c => Cell.num (coerceNum c))
    ∧ (∀ df qc pc, pc ≠ "quantity" →
        (applySales df (SalesPath.qtyPrice qc pc)).getCol "sales"
          = List.zipWith (fun a b => Cell.num (coerceNum a * coerceNum b))
              (df.getCol qc) (df.getCol pc))
    ∧ (∀ df col, (applySales df (SalesPath.other col)).getCol "sales"
          = (df.getCol col).map fun c => Cell.num (coerceNum c))
    ∧ (∀ df0 df' k, DF.WF df0 k → read_sales_excel df0 = Except.ok df' →
        (df'.getCol "sales").length = k) := by
  refine ⟨?_, ?_, ?_, ?_, ?_⟩
  · intro c h
    simp [coerceNum, h]
  · intro df col
    simp only [applySales]
    exact getCol_setCol_self _ _ _
  · intro df qc pc hpcq
    simp only [applySales]
    rw [getCol_setCol_self,
      getCol_setCol_ne _ _ _ _ (by decide : ("quantity" : String) ≠ "price"),
      getCol_setCol_self, getCol_setCol_self,
      getCol_setCol_ne _ _ _ _ hpcq]
    exact zipWith_coerce _ _
  · intro df col
    simp only [applySales]
    exact getCol_setCol_self _ _ _
  · intro df0 df' k hwf hr
    obtain ⟨hwf', _, hsales, _⟩ := read_ok_WF hwf hr
    exact getCol_length hwf' hsales

/-- Witness for C2: a concrete unparsable cell coerces to zero. -/
theorem c2_silent_zero_witness : coerceNum (Cell.text "N/A") = 0 :=
  c2_silent_zero.1 (Cell.text "N/A") rfl

/-- Claim C3: for any well-formed input table the reader accepts, the total
of the product summary equals the total of the month summary (total sales
is conserved across both groupings). -/
theorem c3_total_conserved {df0 df' dfm : DF} {k : Nat} {m : List (Date × ℚ)}
    (hwf : DF.WF df0 k) (hr : read_sales_excel df0 = Except.ok df')
    (hm : summarize_by_month df' = Except.ok (dfm, m)) :
    ((summarize_by_product df').map Prod.snd).sum = (m.map Prod.snd).sum := by
  obtain ⟨hwf', hdate, hsales, hprodm⟩ := read_ok_WF hwf hr
  rw [summarize_by_product_total df'
      (by rw [getCol_length hwf' hprodm, getCol_length hwf' hsales]),
    summarize_by_month_total hm
      (by rw [getCol_length hwf' hsales, getCol_length hwf' hdate])]

/-- Witness for C3 on the round-trip table: both summaries total the same. -/
theorem c3_total_conserved_witness :
    ((summarize_by_product outDF7).map Prod.snd).sum = (month7.2.map Prod.snd).sum :=
  c3_total_conserved (k := 2) (by decide)
    (show read_sales_excel exDF7 = Except.ok outDF7 from rfl)
    (show summarize_by_month outDF7 = Except.ok (month7.1, month7.2) from rfl)

/-- Counterexample to C4 as stated: on a table whose products first occur
in the order "b", "a" with equal sums, the summary lists "a" first — the
tie is not broken by first occurrence in the input. -/
theorem c4_counterexample :
    summarize_by_product nDF4 = [("a", (5 : ℚ)), ("b", 5)]
    ∧ firstOccur ((nDF4.getCol "product").map cellStr) = ["b", "a"]
    ∧ ¬ (summarize_by_product nDF4).map Prod.fst
        = firstOccur ((nDF4.getCol "product").map cellStr) := by
  have h1 : summarize_by_product nDF4 = [("a", (5 : ℚ)), ("b", 5)] := by
    norm_num +decide [summarize_by_product, prodPairs, sumKey, cellStr, coerceNum,
      parseNum, DF.getCol, getColAux, firstOccur, List.insertionSort,
      List.orderedInsert, salesGe, strLe, charsLeb, List.zip]
  have h2 : firstOccur ((nDF4.getCol "product").map cellStr) = ["b", "a"] := by decide
  refine ⟨h1, h2, ?_⟩
  rw [h1, h2]
  decide

/-- Claim C4 (amended): `summarize_by_product` groups by product and sums
sales per group, each product appearing exactly once, and returns the
groups sorted descending by summed sales.  The relative order of groups
with equal sums is not part of the contract — `sort_values` defaults to
quicksort, whose tie order is unspecified — and in particular it is not
the first-occurrence order the original claim asserted. -/
theorem c4_group_sort (df : DF) :
    ((summarize_by_product df).Pairwise fun a b => b.2 ≤ a.2)
    ∧ (∀ p ∈ summarize_by_product df, p.2 = sumKey (prodPairs df) p.1)
    ∧ ((summarize_by_product df).map Prod.fst).Perm
        (firstOccur ((prodPairs df).map Prod.fst))
    ∧ ((summarize_by_product df).map Prod.fst).Nodup := by
  simp only [summarize_by_product]
  have hperm : ((List.insertionSort salesGe
      ((List.insertionSort strLe (firstOccur ((prodPairs df).map Prod.fst))).map
        fun k => (k, sumKey (prodPairs df) k))).map Prod.fst).Perm
      (firstOccur ((prodPairs df).map Prod.fst)) := by
    have h1 := (List.perm_insertionSort salesGe
      ((List.insertionSort strLe (firstOccur ((prodPairs df).map Prod.fst))).map
        fun k => (k, sumKey (prodPairs df) k))).map Prod.fst
    rw [List.map_map] at h1
    have h2 : (Prod.fst ∘ fun k => (k, sumKey (prodPairs df) k)) = id := rfl
    rw [h2, List.map_id] at h1
    exact h1.trans (List.perm_insertionSort strLe _)
  refine ⟨List.sorted_insertionSort salesGe _, ?_, hperm,
    hperm.symm.nodup (nodup_firstOccur _)⟩
  intro p hp
  have hp' := (List.perm_insertionSort salesGe _).mem_iff.mp hp
  obtain ⟨kk, hk, rfl⟩ := List.mem_map.mp hp'
  rfl

/-- Witness for C4 (amended) on the two-product table: the summary entry
for "a" carries the group sum of "a". -/
theorem c4_group_sort_witness :
    ("a", (5 : ℚ)).2 = sumKey (prodPairs nDF4) ("a", (5 : ℚ)).1 :=
  (c4_group_sort nDF4).2.1 ("a", (5 : ℚ)) (by
    norm_num +decide [summarize_by_product, prodPairs, sumKey, cellStr, coerceNum,
      parseNum, DF.getCol, getColAux, firstOccur, List.insertionSort,
      List.orderedInsert, salesGe, strLe, charsLeb, List.zip])

/-- Counterexample to C5 as stated: normalization passes a negative sales
value straight through — the reader accepts `exDF5` and its normalized
sales column carries the negative value -5. -/
theorem c5_counterexample :
    (read_sales_excel exDF5).map (fun d => d.getCol "sales") = Except.ok [Cell.num (-5)]
    ∧ ((-5 : ℚ) < 0) :=
  ⟨rfl, by norm_num⟩

/-- Claim C5 (amended): every cell of the normalized sales column is
numeric (unparsable values having been coerced to 0), but it is not
necessarily non-negative. -/
theorem c5_sales_numeric {df0 df' : DF} (hr : read_sales_excel df0 = Except.ok df') :
    ∀ c ∈ df'.getCol "sales", ∃ q, c = Cell.num q := by
  obtain ⟨dc, rest, ds, p, pc, prest, hfd, hpd, hsp, hpc, hdf⟩ := read_ok_struct hr
  subst hdf
  rw [getCol_setCol_ne _ _ _ _ (by decide : ("sales" : String) ≠ "product")]
  cases p with
  | direct c =>
    simp only [applySales]
    rw [getCol_setCol_self]
    intro c' hc'
    obtain ⟨x, _, rfl⟩ := List.mem_map.mp hc'
    exact ⟨coerceNum x, rfl⟩
  | other c =>
    simp only [applySales]
    rw [getCol_setCol_self]
    intro c' hc'
    obtain ⟨x, _, rfl⟩ := List.mem_map.mp hc'
    exact ⟨coerceNum x, rfl⟩
  | qtyPrice qc pc' =>
    simp only [applySales]
    rw [getCol_setCol_self]
    intro c' hc'
    obtain ⟨a, b, rfl⟩ := exists_of_mem_zipWith hc'
    exact ⟨coerceNum a * coerceNum b, rfl⟩

/-- Witness for C5 (amended): the (negative) sales cell of the normalized
`exDF5` is numeric. -/
theorem c5_sales_numeric_witness : ∃ q, Cell.num (-5) = Cell.num q :=
  c5_sales_numeric
    (show read_sales_excel exDF5 = Except.ok exDF5 from rfl)
    (Cell.num (-5)) (by decide)

/-- Counterexample to C6 as stated: `summarize_by_month` hands back a table
that differs from the one it received — it has gained a derived "month"
column, so the aggregation step does mutate the normalized table. -/
theorem c6_counterexample :
    (summarize_by_month nDF6).map Prod.fst
      = Except.ok (nDF6.setCol "month" [Cell.dateV ⟨2025, 1, 1⟩])
    ∧ nDF6.setCol "month" [Cell.dateV ⟨2025, 1, 1⟩] ≠ nDF6 :=
  ⟨rfl, by decide⟩

/-- Claim C6 (amended): `summarize_by_product` is a pure reduction, and
`summarize_by_month` changes its input table only by storing the derived
"month" column on it — every other column is left exactly as received. -/
theorem c6_month_frame {df dfm : DF} {m : List (Date × ℚ)}
    (h : summarize_by_month df = Except.ok (dfm, m)) :
    (∀ c, c ≠ "month" → dfm.getCol c = df.getCol c)
    ∧ ∃ ds, parseDates (df.getCol "date") = some ds ∧
        dfm = df.setCol "month" ((ds.map Date.monthStart).map Cell.dateV) := by
  unfold summarize_by_month at h
  cases hpd : parseDates (df.getCol "date") with
  | none => rw [hpd] at h; simp at h
  | some ds =>
    rw [hpd] at h
    simp only [Except.ok.injEq, Prod.mk.injEq] at h
    obtain ⟨hdfm, hmm⟩ := h
    subst hdfm
    exact ⟨fun c hc => getCol_setCol_ne _ _ _ _ hc, ds, rfl, rfl⟩

/-- Witness for C6 (amended): on `nDF6`, the sales column survives the
month-summary step unchanged. -/
theorem c6_month_frame_witness :
    (nDF6.setCol "month" [Cell.dateV ⟨2025, 1, 1⟩]).getCol "sales" = nDF6.getCol "sales" :=
  (@c6_month_frame nDF6 _ _ rfl).1 "sales" (by decide)

/-- Claim C7: the round-trip scenario: on the two Camiseta rows with
quantity and price columns, the product summary is exactly
[("Camiseta", 249.50)] and the month summary is exactly
[(2025-01-01, 149.70), (2025-02-01, 99.80)]. -/
theorem c7_roundtrip :
    (read_sales_excel exDF7).map summarize_by_product
      = Except.ok [("Camiseta", (499 : ℚ)/2)]
    ∧ (read_sales_excel exDF7).bind (fun d => (summarize_by_month d).map Prod.snd)
      = Except.ok [(⟨2025, 1, 1⟩, (1497 : ℚ)/10), (⟨2025, 2, 1⟩, (499 : ℚ)/5)] := by
  have hread : read_sales_excel exDF7 = Except.ok outDF7 := rfl
  constructor
  · rw [hread]
    show Except.ok (summarize_by_product outDF7) = _
    norm_num +decide [summarize_by_product, prodPairs, sumKey, cellStr, coerceNum,
      parseNum, DF.getCol, getColAux, firstOccur, List.insertionSort,
      List.orderedInsert, salesGe, strLe, charsLeb, List.zip, outDF7]
  · rw [hread]
    show (summarize_by_month outDF7).map Prod.snd = _
    norm_num +decide [summarize_by_month, sumKey, coerceNum, parseNum, parseDates,
      parseDate, DF.getCol, getColAux, DF.setCol, setColAux, firstOccur,
      List.insertionSort, List.orderedInsert, monthLe, Date.key, Date.monthStart,
      List.zip, Except.map, outDF7]

/-- Claim C8: when a date column has been chosen, a single value of it
failing to parse as a calendar date makes normalization (and hence the
whole run) fail with the date data error — there is no per-row skip and no
partial output; when every date value parses, that error is never raised. -/
theorem c8_bad_dates {df : DF} {dc : String} {rest : List String}
    (h1 : (normalizeCols df).names.filter isDateName = dc :: rest) :
    (parseDates ((normalizeCols df).getCol dc) = none →
        read_sales_excel df = Except.error RptError.badDates
        ∧ runPipeline df = Except.error RptError.badDates)
    ∧ (∀ ds, parseDates ((normalizeCols df).getCol dc) = some ds →
        read_sales_excel df ≠ Except.error RptError.badDates) := by
  constructor
  · intro hp
    have hread : read_sales_excel df = Except.error RptError.badDates := by
      simp [read_sales_excel, h1, hp]
    exact ⟨hread, by simp [runPipeline, hread]⟩
  · intro ds hp hcontra
    simp only [read_sales_excel, h1, hp] at hcontra
    cases hsp : resolveSalesPath
        ((normalizeCols df).setCol "date" (ds.map Cell.dateV)).names with
    | none => simp only [hsp] at hcontra; simp at hcontra
    | some p =>
      simp only [hsp] at hcontra
      cases hpc : (applySales ((normalizeCols df).setCol "date" (ds.map Cell.dateV))
          p).names.filter isProdName with
      | nil => simp only [hpc] at hcontra; simp at hcontra
      | cons pc prest => simp only [hpc] at hcontra; simp at hcontra

/-- Witness for C8 on a table whose date column holds "not a date": the
run fails with the date data error. -/
theorem c8_bad_dates_witness : read_sales_excel exDF8 = Except.error RptError.badDates :=
  ((@c8_bad_dates exDF8 "date" [] (by decide)).1 rfl).1

/-- Claim C9: if no column name contains "date" or "data", the run fails
with the missing-date schema error and no document is produced; otherwise
the first date-like column in table order is the one whose parsed values
become the canonical date column. -/
theorem c9_missing_date (df : DF) :
    ((normalizeCols df).names.filter isDateName = [] →
        read_sales_excel df = Except.error RptError.noDateCol
        ∧ runPipeline df = Except.error RptError.noDateCol)
    ∧ (∀ dc rest df', (normalizeCols df).names.filter isDateName = dc :: rest →
        read_sales_excel df = Except.ok df' →
        ∃ ds, parseDates ((normalizeCols df).getCol dc) = some ds ∧
          df'.getCol "date" = ds.map Cell.dateV) := by
  constructor
  · intro h
    have hread : read_sales_excel df = Except.error RptError.noDateCol := by
      simp [read_sales_excel, h]
    exact ⟨hread, by simp [runPipeline, hread]⟩
  · intro dc rest df' h1 hr
    obtain ⟨dc', rest', ds, p, pc, prest, hfd, hpd, hsp, hpc, hdf⟩ := read_ok_struct hr
    rw [h1] at hfd
    injection hfd with e1 e2
    subst e1
    refine ⟨ds, hpd, ?_⟩
    subst hdf
    rw [getCol_setCol_ne _ _ _ _ (by decide : ("date" : String) ≠ "product"),
      getCol_applySales (by decide) (by decide) (by decide),
      getCol_setCol_self]

/-- Witness for C9 on a table with no date-like column: the pipeline fails
with the missing-date schema error before any document exists. -/
theorem c9_missing_date_witness : runPipeline exDF9 = Except.error RptError.noDateCol :=
  ((c9_missing_date exDF9).1 (by decide)).2

/-- Claim C10: sales-path resolution is attempted before the product column
is ever checked: on a table with a date column but neither a product-like
column nor a resolvable sales path, the error raised is the sales-path
schema error, not the missing-product one. -/
theorem c10_sales_before_product {df : DF} {dc : String} {rest : List String}
    {ds : List Date}
    (h1 : (normalizeCols df).names.filter isDateName = dc :: rest)
    (h2 : parseDates ((normalizeCols df).getCol dc) = some ds)
    (h3 : resolveSalesPath ((normalizeCols df).setCol "date" (ds.map Cell.dateV)).names
      = none)
    (_h4 : ((normalizeCols df).setCol "date" (ds.map Cell.dateV)).names.filter isProdName
      = []) :
    read_sales_excel df = Except.error RptError.noSalesCols
    ∧ read_sales_excel df ≠ Except.error RptError.noProductCol := by
  have hread : read_sales_excel df = Except.error RptError.noSalesCols := by
    simp [read_sales_excel, h1, h2, h3]
  exact ⟨hread, by simp [hread]⟩

/-- Witness for C10 on a table with only a date column and an unrelated
"x" column: the reader reports the sales-path schema error. -/
theorem c10_sales_before_product_witness :
    read_sales_excel exDF10 = Except.error RptError.noSalesCols :=
  (@c10_sales_before_product exDF10 "date" [] [⟨2025, 1, 5⟩]
    (by decide) rfl (by decide) (by decide)).1

end SalesReport
